import Mathlib

/-!
Verification development for the repository's notebooks.

The repository is a set of tutorial notebooks over the IDAES Data Management
Framework (DMF).  The DMF implementation itself (class `DMF`, module
`idaes.core.dmf.resource`) is imported from an external package and is not part
of the repository's sources; the notebooks only call it.  Following the spec,
the DMF resource/relation store is therefore modelled here from the spec's
description of its external behavior (sections 3, 4, 6, 7 of the spec).

Two functions are defined directly in the notebooks and are embedded from the
source: `get_tau` (parameter-estimation notebook) and `make_control_volume`
(custom compressor notebook).
-/

namespace DMFSpec

/-! ## JSON-like documents

Resources carry a free-form JSON-serializable document.  The three mutually
inductive types below represent such documents: scalar values, arrays, and
objects (field lists). -/

mutual
/-- Modelled from the spec: the missing external DMF stores "JSON-serializable
Resource documents" (spec section 2); a document value is a scalar, an array,
or an object with named fields. -/
inductive Doc where
  | null
  | bool (b : Bool)
  | int (n : Int)
  | str (s : String)
  | arr (elts : DocList)
  | obj (fields : DocFields)
deriving DecidableEq

/-- List of document values (elements of a JSON array). -/
inductive DocList where
  | nil
  | cons (hd : Doc) (tl : DocList)
deriving DecidableEq

/-- List of named document fields (members of a JSON object). -/
inductive DocFields where
  | nil
  | cons (key : String) (val : Doc) (tl : DocFields)
deriving DecidableEq
end

/-- Look up a field by name in an object's field list (first occurrence). -/
def DocFields.get? : DocFields → String → Option Doc
  | .nil, _ => none
  | .cons k v tl, key => if k == key then some v else DocFields.get? tl key

/-- Convert a document array to a Lean list. -/
def DocList.toList : DocList → List Doc
  | .nil => []
  | .cons h t => h :: DocList.toList t

/-- Follow a dotted path (already split into components) into nested objects.
Mirrors the spec: "dotted paths address nested fields" (spec section 4.1). -/
def getPath : Doc → List String → Option Doc
  | d, [] => some d
  | .obj fs, k :: ks =>
    match fs.get? k with
    | some v => getPath v ks
    | none => none
  | _, _ :: _ => none

/-- Split a character list at the dots, as the dotted filter keys are split. -/
def splitDots : List Char → List (List Char)
  | [] => [[]]
  | '.' :: rest => [] :: splitDots rest
  | c :: rest =>
    match splitDots rest with
    | [] => [[c]]
    | g :: gs => (c :: g) :: gs

/-! ## Regular-expression matching

The spec says a filter string value prefixed with the sentinel `~` "is
interpreted as a regular expression" (spec section 4.1).  The fragment of
regular expressions actually used by the notebooks (literals, `.`, and the `*`
postfix) is modelled here.  Matching is anchored at the start of the subject
and may stop before its end, like Python's `re.match`.  The `IGNORECASE` flag
is modelled by comparing lowercased characters. -/

/-- One regular-expression token: a literal character or the wildcard dot. -/
inductive RTok where
  | lit (c : Char)
  | dot
deriving DecidableEq

/-- Parse a pattern into tokens, each with a flag telling whether it carries a
`*` postfix. -/
def parsePat : List Char → List (RTok × Bool)
  | [] => []
  | c :: '*' :: rest => ((if c = '.' then RTok.dot else RTok.lit c), true) :: parsePat rest
  | c :: rest => ((if c = '.' then RTok.dot else RTok.lit c), false) :: parsePat rest

/-- Match one token against one character; `ci` selects case-insensitive
comparison (the model of `re.IGNORECASE`). -/
def tokMatch (ci : Bool) (t : RTok) (c : Char) : Bool :=
  match t with
  | .dot => true
  | .lit d => if ci then d.toLower == c.toLower else d == c

/-- Fuel-indexed matcher.  Each recursive call decreases `2 * subject length +
token-list length` by at least one, so with fuel above that measure the fuel
never runs out and the function computes the standard backtracking semantics of
the token list, anchored at the head of the subject. -/
def matchToks (ci : Bool) : Nat → List (RTok × Bool) → List Char → Bool
  | 0, _, _ => false
  | _ + 1, [], _ => true
  | _ + 1, (_, false) :: _, [] => false
  | fuel + 1, (t, false) :: ts, c :: cs => tokMatch ci t c && matchToks ci fuel ts cs
  | fuel + 1, (_, true) :: ts, [] => matchToks ci fuel ts []
  | fuel + 1, (t, true) :: ts, c :: cs =>
      matchToks ci fuel ts (c :: cs) || (tokMatch ci t c && matchToks ci fuel ((t, true) :: ts) cs)

/-- Sufficient fuel for `matchToks` on the given token list and subject. -/
def matchFuel (toks : List (RTok × Bool)) (s : List Char) : Nat :=
  2 * s.length + toks.length + 1

/-- Modelled from the spec: the missing external DMF interprets a `~`-marked
filter value as a regular expression; this is the prefix-anchored match of a
pattern against a subject, with optional case-insensitivity. -/
def regexMatch (ci : Bool) (pat s : List Char) : Bool :=
  matchToks ci (matchFuel (parsePat pat) s) (parsePat pat) s

/-! ## Resources and relations -/

/-- Direction of a relation record as stored on one endpoint. -/
inductive Direction where
  | outgoing
  | incoming
deriving DecidableEq

/-- Modelled from the spec: relation record kept in a resource's relation list,
shape `{predicate, identifier, direction}` (spec section 6); `identifier` is
the id of the other endpoint. -/
structure Relation where
  predicate : String
  identifier : String
  direction : Direction
deriving DecidableEq

/-- A file associated with a resource: either copied into workspace-owned
storage (the content is snapshotted) or a reference to an external path. -/
inductive DataFile where
  | copied (name : String) (content : String)
  | extRef (path : String)
deriving DecidableEq

/-- Modelled from the spec: the missing external DMF `Resource` document with
identifier, type, aliases (first alias is the name), tags, free-form value
fields, relation records, and associated files (spec sections 3 and 6). -/
structure Resource where
  id : String
  rtype : String
  aliases : List String
  tags : List String
  value : DocFields
  relations : List Relation
  datafiles : List DataFile
deriving DecidableEq

/-- Build a list of string documents. -/
def strDocs : List String → DocList
  | [] => .nil
  | s :: rest => .cons (.str s) (strDocs rest)

/-- The queryable document of a resource: its structured metadata fields
followed by its free-form value fields, as one JSON object
(spec section 6: `{id, type, aliases[], tags[], relations[...], value/data}`). -/
def resourceDoc (r : Resource) : Doc :=
  .obj (.cons "id" (.str r.id)
    (.cons "type" (.str r.rtype)
      (.cons "aliases" (.arr (strDocs r.aliases))
        (.cons "tags" (.arr (strDocs r.tags)) r.value))))

/-! ## The store state

The workspace holds a persisted resource database; relation edits are buffered
client-side until an explicit flush (spec section 5).  The state is the
persisted store plus the buffered (pending) resources. -/

/-- Modelled from the spec: the missing external DMF workspace state — the
persisted resource database plus resources with pending (unflushed) relation
changes (spec sections 4.2 and 5). -/
structure DMFState where
  store : List Resource
  pending : List Resource
deriving DecidableEq

/-- Identifiers of a resource list, in order. -/
def ids (l : List Resource) : List String := l.map Resource.id

/-- Modelled from the spec: the missing external `DMF.add` "persists a new
resource ...; fails if identifier already exists" (spec section 4.1). -/
def add (s : DMFState) (r : Resource) : Except String DMFState :=
  if (ids s.store).contains r.id then Except.error "identifier already exists"
  else Except.ok ⟨s.store ++ [r], s.pending⟩

/-- Modelled from the spec: the missing external `DMF.find_by_id` "yields a
lazy sequence of resources whose identifier starts with the given prefix"
(spec section 4.1).  The model returns the (finite) list of results of one
call; a fresh call evaluates the same function again, restarting it. -/
def find_by_id (s : DMFState) (pre : String) : List Resource :=
  s.store.filter (fun r => pre.data.isPrefixOf r.id.data)

/-- The enumerated predicate set (spec glossary: derived, contains, uses,
version). -/
def validPredicates : List String := ["derived", "contains", "uses", "version"]

/-- Append an outgoing relation record to a resource's relation list. -/
def withOut (r : Resource) (pred oid : String) : Resource :=
  { r with relations := r.relations ++ [⟨pred, oid, Direction.outgoing⟩] }

/-- Append an incoming relation record to a resource's relation list. -/
def withIn (r : Resource) (pred sid : String) : Resource :=
  { r with relations := r.relations ++ [⟨pred, sid, Direction.incoming⟩] }

/-- Insert a pending resource, replacing any pending entry with the same id. -/
def upsert (r : Resource) (l : List Resource) : List Resource :=
  if l.any (fun q => q.id == r.id) then l.map (fun q => if q.id == r.id then r else q)
  else r :: l

/-- Modelled from the spec: the missing external `create_relation(subject,
predicate, object)` "validates predicate against the enumerated set and appends
the relation to both resources' in-memory relation lists; it does not itself
persist" (spec section 4.2).  The two updated resources join the pending set;
the persisted store is untouched. -/
def create_relation (s : DMFState) (subj : Resource) (pred : String) (obj : Resource) :
    Except String DMFState :=
  if validPredicates.contains pred then
    Except.ok ⟨s.store, upsert (withOut subj pred obj.id) (upsert (withIn obj pred subj.id) s.pending)⟩
  else Except.error "invalid predicate"

/-- Modelled from the spec: the missing external `DMF.update` "performs a batch
write-back of all resources with pending relation changes" (spec section 4.2):
every stored resource whose id has a pending version is replaced by that
version, and the pending buffer is emptied. -/
def update (s : DMFState) : DMFState :=
  ⟨s.store.map (fun r => (s.pending.find? (fun q => q.id == r.id)).getD r), []⟩

/-! ## Filter queries -/

/-- A key with a `!` suffix asks for all-items matching (spec section 4.1). -/
def keyIsAll (k : String) : Bool := k.data.getLast? == some '!'

/-- The dotted path addressed by a filter key (with any `!` suffix removed). -/
def keyPath (k : String) : List String :=
  (splitDots (if keyIsAll k then k.data.dropLast else k.data)).map (fun cs => String.mk cs)

/-- Modelled from the spec: scalar filter matching of the missing external DMF —
"scalar match is equality; a string value prefixed with a sentinel character is
interpreted as a regular expression" (spec section 4.1).  The sentinel is the
tilde. -/
def strFilterMatch (ci : Bool) (sdata : List Char) (fv dv : Doc) : Bool :=
  match sdata with
  | '~' :: pat =>
    match dv with
    | .str t => regexMatch ci pat t.data
    | _ => false
  | _ => dv == fv

/-- Scalar comparison of a filter value against a document value: equality,
except that a tilde-marked string filter value is a regular-expression
match. -/
def matchValue (ci : Bool) (fv dv : Doc) : Bool :=
  match fv with
  | .str s => strFilterMatch ci s.data (Doc.str s) dv
  | _ => dv == fv

/-- Match one filter item (key and value) against a resource: resolve the
dotted path in the resource's document, then compare.  List-valued filters
match "any item matches" by default and "all items must match" with the `!`
key suffix (spec section 4.1). -/
def matchItem (ci : Bool) (r : Resource) (key : String) (fv : Doc) : Bool :=
  match getPath (resourceDoc r) (keyPath key) with
  | none => false
  | some dv =>
    match fv with
    | .arr fitems =>
      match dv with
      | .arr ditems =>
        if keyIsAll key then
          fitems.toList.all (fun fi => ditems.toList.any (fun di => matchValue ci fi di))
        else
          fitems.toList.any (fun fi => ditems.toList.any (fun di => matchValue ci fi di))
      | _ => false
    | _ => matchValue ci fv dv

/-- A resource matches a Mongo-style filter when every item matches. -/
def matchesFilter (ci : Bool) (flt : List (String × Doc)) (r : Resource) : Bool :=
  flt.all (fun kv => matchItem ci r kv.1 kv.2)

/-- The `name` shortcut parameter matches against the resource's aliases
("searching by name is really just a special case of searching by alias",
tutorial notebook; the first alias is the name). -/
def nameMatches (name : Option String) (r : Resource) : Bool :=
  match name with
  | some n => r.aliases.contains n
  | none => true

/-- Modelled from the spec: the missing external `DMF.find(filter_dict,
name=None, re_flags=0)` "yields resources matching a Mongo-style filter"
(spec section 4.1).  `ci` tells whether `re.IGNORECASE` is in `re_flags`. -/
def find (s : DMFState) (flt : List (String × Doc)) (name : Option String) (ci : Bool) :
    List Resource :=
  s.store.filter (fun r => nameMatches name r && matchesFilter ci flt r)

/-- Modelled from the spec: the missing external `DMF.find_one` "returns the
first match or a sentinel for none" (spec section 4.1); the none sentinel is
`Option.none`, which is falsy for the notebooks' `if not result:` checks. -/
def find_one (s : DMFState) (flt : List (String × Doc)) (name : Option String) (ci : Bool) :
    Option Resource :=
  (find s flt name ci).head?

/-- Modelled from the spec: the missing external `DMF.remove` deleting "by
exact id" (spec section 4.1). -/
def remove (s : DMFState) (rid : String) : DMFState :=
  ⟨s.store.filter (fun r => !(r.id == rid)), s.pending⟩

/-- Modelled from the spec: the missing external `DMF.remove` deleting "by the
same filter semantics as `find`" (spec section 4.1). -/
def remove_filter (s : DMFState) (ci : Bool) (flt : List (String × Doc)) : DMFState :=
  ⟨s.store.filter (fun r => !(matchesFilter ci flt r)), s.pending⟩

/-! ## Relation traversal -/

/-- A relation triple: subject id, predicate, object id. -/
structure Triple where
  subject : String
  predicate : String
  object : String
deriving DecidableEq

/-- Find the stored resource with the given id (first occurrence). -/
def lookupRes (store : List Resource) (rid : String) : Option Resource :=
  store.find? (fun r => r.id == rid)

/-- Materialize the selected metadata fields of a resource: "meta selects which
fields of each discovered resource to materialize" (spec section 4.2). -/
def materialize (meta : List String) (r : Resource) : List (String × Doc) :=
  meta.filterMap (fun f => (getPath (resourceDoc r) [f]).map (fun d => (f, d)))

/-- The edges leaving a resource in the chosen direction, as (triple, neighbor
id) pairs: with `outgoing` set, follow the subject-to-object records; otherwise
follow the reverse (spec section 4.2). -/
def relEdges (outgoing : Bool) (r : Resource) : List (Triple × String) :=
  r.relations.filterMap (fun rel =>
    if outgoing then
      match rel.direction with
      | .outgoing => some (⟨r.id, rel.predicate, rel.identifier⟩, rel.identifier)
      | .incoming => none
    else
      match rel.direction with
      | .incoming => some (⟨rel.identifier, rel.predicate, r.id⟩, rel.identifier)
      | .outgoing => none)

/-- Depth-first traversal from a resource id, with a visited set and fuel;
yields (depth, triple, selected metadata) tuples. -/
def find_related_aux (store : List Resource) (outgoing : Bool) (meta : List String) :
    Nat → Nat → List String → String → List (Nat × Triple × List (String × Doc))
  | 0, _, _, _ => []
  | fuel + 1, depth, visited, rid =>
    match lookupRes store rid with
    | none => []
    | some r =>
      (relEdges outgoing r).flatMap (fun e =>
        let md := match lookupRes store e.2 with
          | some q => materialize meta q
          | none => []
        (depth, e.1, md) ::
          (if visited.contains e.2 then []
           else find_related_aux store outgoing meta fuel (depth + 1) (e.2 :: visited) e.2))

/-- Modelled from the spec: the missing external `DMF.find_related(resource,
outgoing, meta)` "performs a graph traversal from the given resource, yielding
(depth, relation-triple, selected-metadata) tuples" (spec section 4.2). -/
def find_related (s : DMFState) (r : Resource) (outgoing : Bool) (meta : List String) :
    List (Nat × Triple × List (String × Doc)) :=
  find_related_aux s.store outgoing meta (s.store.length + 1) 1 [r.id] r.id

/-! ## Files -/

/-- Content of an external file at a path, if the path exists.  The external
filesystem is modelled as a path-to-content association list. -/
def readFile (fs : List (String × String)) (p : String) : Option String :=
  (fs.find? (fun e => e.1 == p)).map (fun e => e.2)

/-- The path of a resource's data file: the workspace copy for a copied file,
the external path for a referenced one. -/
def datafilePath : DataFile → String
  | .copied name _ => name
  | .extRef p => p

/-- A handle returned by `get_datafiles`: a path object when no mode is given,
else an open file whose readable content is given (none when the underlying
external file is gone). -/
inductive FileHandle where
  | path (p : String)
  | file (mode : String) (content : Option String)
deriving DecidableEq

/-- Modelled from the spec: the missing external `Resource.get_datafiles(mode)`
"returns the associated file handles: path objects if `mode` is unset, else
open readable/writable handles in the requested mode" (spec section 4.3).
Reading a copied file returns the snapshotted workspace content; reading a
referenced file reads the external filesystem as it is now. -/
def get_datafiles (r : Resource) (fs : List (String × String)) (mode : Option String) :
    List FileHandle :=
  match mode with
  | none => r.datafiles.map (fun d => FileHandle.path (datafilePath d))
  | some m =>
    r.datafiles.map (fun d =>
      match d with
      | .copied _ content => FileHandle.file m (some content)
      | .extRef p => FileHandle.file m (readFile fs p))

/-- The resource document built by `new`: in copy mode its data file is a
snapshot of the content read at creation time; in reference mode it records
the external path only. -/
def newResourceRecord (copyMode : Bool) (rid file name content : String) : Resource :=
  { id := rid, rtype := "data", aliases := [name], tags := [],
    value := DocFields.nil, relations := [],
    datafiles := [if copyMode then DataFile.copied file content else DataFile.extRef file] }

/-- Modelled from the spec: the missing external `DMF.new(file=path, ...)`
"creates a resource and, depending on configuration, either copies the file
into workspace storage ... or stores a reference to the external location"
(spec section 4.3); the generated unique identifier is produced externally
(a uuid) and is taken here as the argument `rid`. -/
def new (s : DMFState) (fs : List (String × String)) (copyMode : Bool)
    (rid file name : String) : Except String (DMFState × Resource) :=
  match readFile fs file with
  | none => Except.error "file not found"
  | some content =>
    match add s (newResourceRecord copyMode rid file name content) with
    | Except.ok s2 => Except.ok (s2, newResourceRecord copyMode rid file name content)
    | Except.error e => Except.error e

/-! ## Notebook function `get_tau`

Embedded from the source (parameter-estimation notebook): `get_tau(d, chem1,
chem2)` scans `d.index.to_list()` in order, keeps the first key `k` for which
`re.match(fr"fs\.properties\.tau.*CHEM1.*CHEM2.*", k)` succeeds (the chemical
names interpolated literally), returns `d.at[k]`, and raises `KeyError` when no
key matches.  The pandas Series `d` is modelled as an association list from
keys to values, polymorphic in the value type; `d.index.to_list()` is its key
list and `d.at[k]` is lookup by key. -/

/-- When the pattern occurs in the subject, the suffix of the subject after the
first (leftmost) occurrence; otherwise none. -/
def dropAfter (p : List Char) : List Char → Option (List Char)
  | [] => if p.isEmpty then some [] else none
  | c :: rest =>
    if p.isPrefixOf (c :: rest) then some ((c :: rest).drop p.length)
    else dropAfter p rest

/-- Whether the pattern occurs (contiguously) anywhere in the subject. -/
def containsSub (p l : List Char) : Bool := (dropAfter p l).isSome

/-- The literal head of the `get_tau` key pattern. -/
def tauKeyPre : List Char := "fs.properties.tau".data

/-- The characters that carry special meaning in a Python regular expression
(outside a character class).  A pattern fragment built only from characters
outside this set is matched by `re` as its literal text. -/
def regexMeta : List Char :=
  ['.', '^', '$', '*', '+', '?', '{', '}', '[', ']', '\\', '|', '(', ')']

/-- Embedded regular-expression test of `get_tau`: `re.match` of the pattern
`fs\.properties\.tau.*CHEM1.*CHEM2.*` against the key.  The source
interpolates the chemical names into the regex; this embedding reads them as
their literal text, which is `re`'s own reading exactly when the names contain
no character of `regexMeta` (as `benzene` and `toluene`, the names the
notebook passes, do not) — the theorems about `get_tau` carry that domain
restriction as a hypothesis.  The key must start with `fs.properties.tau` and
the remainder must contain the first name and then, after it, the second. -/
def tauKeyMatches (chem1 chem2 : String) (key : String) : Bool :=
  tauKeyPre.isPrefixOf key.data &&
    (match dropAfter chem1.data (key.data.drop tauKeyPre.length) with
     | some rest => containsSub chem2.data rest
     | none => false)

/-- Declarative semantics of the `get_tau` key pattern
`fs\.properties\.tau.*CHEM1.*CHEM2.*` with literal chemical names, stated the
way the regular expression reads: the key is the literal head, then an
arbitrary gap, the first name, another gap, the second name, and an arbitrary
tail.  Stated for comparison with the executable `tauKeyMatches`. -/
def tauPatternSemantics (chem1 chem2 key : String) : Prop :=
  ∃ g1 g2 g3, key.data = tauKeyPre ++ g1 ++ chem1.data ++ g2 ++ chem2.data ++ g3

/-- Embedded from the source: `get_tau` of the parameter-estimation notebook.
The loop over `d.index.to_list()` with `break` is the first-match search; the
`found_key is None` test raises `KeyError`. -/
def get_tau {α : Type} (d : List (String × α)) (chem1 chem2 : String) : Except String α :=
  match (d.map Prod.fst).find? (tauKeyMatches chem1 chem2) with
  | some key =>
    match d.lookup key with
    | some v => Except.ok v
    | none => Except.error "key found but no value"
  | none => Except.error "Did not find any key for fs.properties.tau"

/-! ## Notebook function `make_control_volume`

Embedded from the source (custom compressor notebook).  Python's `config.dynamic
is not False` is an identity test against the `False` object; the IDAES config
value ranges over `useDefault`, `True` and `False`, modelled by a three-valued
type.  The body's effects on the unit are recorded as an ordered list of
abstract steps. -/

/-- A Python config value that is `False`, `True`, or `useDefault`. -/
inductive PyTri where
  | pyFalse
  | pyTrue
  | useDefault
deriving DecidableEq

/-- The configuration fields of the compressor read by `make_control_volume`. -/
structure CompressorConfig where
  dynamic : PyTri
  has_holdup : PyTri
  material_balance_type : String
  has_phase_equilibrium : Bool
deriving DecidableEq

/-- One effect of `make_control_volume` on the unit model. -/
inductive CVStep where
  | attachControlVolume (name : String)
  | addStateBlocks (hasPhaseEquilibrium : Bool)
  | addMaterialBalances (balanceType : String) (hasPhaseEquilibrium : Bool)
  | addTotalEnthalpyBalances (hasHeatOfReaction hasHeatTransfer hasWorkTransfer : Bool)
deriving DecidableEq

/-- Embedded from the source: `make_control_volume(unit, name, config)` of the
compressor notebook.  It raises `ValueError` unless `config.dynamic is False`
and `config.has_holdup is False`; otherwise it creates a 0D control volume,
attaches it to the unit under `name`, and adds state blocks, material balances,
and total enthalpy balances (heat of reaction off, heat transfer off, work
transfer on). -/
def make_control_volume (name : String) (config : CompressorConfig) :
    Except String (List CVStep) :=
  if config.dynamic ≠ PyTri.pyFalse then
    Except.error "IdealGasIsentropcCompressor does not support dynamics"
  else if config.has_holdup ≠ PyTri.pyFalse then
    Except.error "IdealGasIsentropcCompressor does not support holdup"
  else
    Except.ok [CVStep.attachControlVolume name,
      CVStep.addStateBlocks config.has_phase_equilibrium,
      CVStep.addMaterialBalances config.material_balance_type config.has_phase_equilibrium,
      CVStep.addTotalEnthalpyBalances false false true]

/-! ## Example data used by the witnesses -/

/-- A small concrete resource for witnesses. -/
def resA : Resource :=
  { id := "a1", rtype := "code", aliases := ["flash_code"], tags := [],
    value := DocFields.nil, relations := [], datafiles := [] }

/-- A second small concrete resource for witnesses. -/
def resB : Resource :=
  { id := "b2", rtype := "data", aliases := ["inlet_params"], tags := [],
    value := DocFields.nil, relations := [], datafiles := [] }

/-- A resource whose document has a nested `data.unit` field, as in the
tutorial's filter-query example. -/
def resFlash : Resource :=
  { id := "c3", rtype := "data", aliases := [], tags := [],
    value := DocFields.cons "data" (Doc.obj (DocFields.cons "unit" (Doc.str "Flash") DocFields.nil)) DocFields.nil,
    relations := [], datafiles := [] }

/-- A small concrete store state for witnesses. -/
def exState : DMFState := ⟨[resA, resB], []⟩

/-- A store state containing the `data.unit = Flash` resource. -/
def exFlashState : DMFState := ⟨[resFlash], []⟩

/-- A one-file external filesystem for the file-handling witness. -/
def exFs : List (String × String) := [("BT_NRTL_dataset.csv", "T,x,y")]

/-- A changed external filesystem (the original file was deleted). -/
def exFsGone : List (String × String) := []

/-- Concrete parameter series for the `get_tau` witness, with the key shape
produced by `parmest`. -/
def exParams : List (String × Int) :=
  [("fs.properties.tau[('benzene', 'toluene')]", -9),
   ("fs.properties.tau[('toluene', 'benzene')]", 14)]

end DMFSpec

namespace DMFSpec

/-! ## Helper lemmas -/

/-- The write-back step of `update` keeps each stored resource's identifier. -/
theorem updatedId (pending : List Resource) (r : Resource) :
    ((pending.find? (fun q => q.id == r.id)).getD r).id = r.id := by
  cases h : pending.find? (fun q => q.id == r.id) with
  | none => rfl
  | some q =>
    have := List.find?_some h
    simpa using this

/-- Flushing pending relation changes preserves the stored identifier list. -/
theorem ids_update (s : DMFState) : ids (update s).store = ids s.store := by
  simp only [update, ids, List.map_map]
  exact List.map_congr_left (fun r _ => updatedId s.pending r)

/-- With distinct identifiers, searching the list for a member's id finds that
member. -/
theorem find?_id_of_nodup (l : List Resource) (r : Resource)
    (hnd : (ids l).Nodup) (hr : r ∈ l) :
    l.find? (fun q => q.id == r.id) = some r := by
  induction l with
  | nil => cases hr
  | cons a t ih =>
    have hnd' := hnd
    rw [ids, List.map_cons, List.nodup_cons] at hnd'
    rcases List.mem_cons.mp hr with rfl | hrt
    · rw [List.find?_cons_of_pos _ (by simp)]
    · have hne : a.id ≠ r.id := by
        intro hEq
        exact hnd'.1 (hEq ▸ List.mem_map_of_mem Resource.id hrt)
      rw [List.find?_cons_of_neg _ (by simp [hne])]
      exact ih hnd'.2 hrt

/-- With distinct identifiers, a filter that holds exactly at one member's id
returns that member alone. -/
theorem filter_eq_singleton_of_unique (l : List Resource) (r : Resource) (p : Resource → Bool)
    (hr : r ∈ l) (hpr : p r = true) (huniq : ∀ q ∈ l, p q = true → q.id = r.id)
    (hnd : (ids l).Nodup) : l.filter p = [r] := by
  induction l with
  | nil => cases hr
  | cons a t ih =>
    have hnd' := hnd
    rw [ids, List.map_cons, List.nodup_cons] at hnd'
    rcases List.mem_cons.mp hr with rfl | hrt
    · rw [List.filter_cons_of_pos hpr]
      have ht : t.filter p = [] := by
        rw [List.filter_eq_nil_iff]
        intro q hq hpq
        exact hnd'.1 (huniq q (List.mem_cons_of_mem _ hq) hpq ▸ List.mem_map_of_mem Resource.id hq)
      rw [ht]
    · have hne : a.id ≠ r.id := by
        intro hEq
        exact hnd'.1 (hEq ▸ List.mem_map_of_mem Resource.id hrt)
      have hpa : p a = false := by
        cases hpa : p a with
        | false => rfl
        | true => exact absurd (huniq a (List.mem_cons_self a t) hpa) hne
      rw [List.filter_cons_of_neg (by simp [hpa])]
      exact ih hrt (fun q hq => huniq q (List.mem_cons_of_mem _ hq)) hnd'.2

/-- Membership in the key list guarantees a successful lookup. -/
theorem lookup_of_mem_keys {α : Type} (d : List (String × α)) (k : String)
    (h : k ∈ d.map Prod.fst) : ∃ v, d.lookup k = some v := by
  induction d with
  | nil => cases h
  | cons kv t ih =>
    rcases List.mem_cons.mp h with hk | hk
    · exact ⟨kv.2, by simp [List.lookup, hk]⟩
    · by_cases hEq : k = kv.1
      · exact ⟨kv.2, by simp [List.lookup, hEq]⟩
      · rcases ih hk with ⟨v, hv⟩
        have hb : (k == kv.1) = false := beq_false_of_ne hEq
        exact ⟨v, by simp [List.lookup, hb, hv]⟩

/-- Case-insensitive token matching only sees the lowercased character. -/
theorem tokMatch_ci (t : RTok) (c₁ c₂ : Char) (h : c₁.toLower = c₂.toLower) :
    tokMatch true t c₁ = tokMatch true t c₂ := by
  cases t with
  | dot => rfl
  | lit d => simp [tokMatch, h]

/-- Case-insensitive matching is invariant under changing the case of the
subject: two subjects with the same lowercasing match the same patterns. -/
theorem matchToks_ci (fuel : Nat) : ∀ (ts : List (RTok × Bool)) (s₁ s₂ : List Char),
    s₁.map Char.toLower = s₂.map Char.toLower →
    matchToks true fuel ts s₁ = matchToks true fuel ts s₂ := by
  induction fuel with
  | zero => intro ts s₁ s₂ _; rfl
  | succ n ih =>
    intro ts s₁ s₂ h
    cases ts with
    | nil => rfl
    | cons tb ts =>
      rcases tb with ⟨t, star⟩
      cases s₁ with
      | nil =>
        cases s₂ with
        | nil => cases star <;> rfl
        | cons c₂ cs₂ => simp at h
      | cons c₁ cs₁ =>
        cases s₂ with
        | nil => simp at h
        | cons c₂ cs₂ =>
          rw [List.map_cons, List.map_cons, List.cons.injEq] at h
          cases star with
          | false =>
            simp only [matchToks]
            rw [tokMatch_ci t c₁ c₂ h.1, ih ts cs₁ cs₂ h.2]
          | true =>
            simp only [matchToks]
            rw [tokMatch_ci t c₁ c₂ h.1,
              ih ((t, true) :: ts) cs₁ cs₂ h.2,
              ih ts (c₁ :: cs₁) (c₂ :: cs₂) (by simp [h.1, h.2])]

/-- Case-insensitive pattern matching is invariant under the case of the
subject string. -/
theorem regexMatch_ci (pat s₁ s₂ : List Char)
    (h : s₁.map Char.toLower = s₂.map Char.toLower) :
    regexMatch true pat s₁ = regexMatch true pat s₂ := by
  have hl : s₁.length = s₂.length := by
    have := congrArg List.length h
    simpa using this
  unfold regexMatch matchFuel
  rw [hl]
  exact matchToks_ci _ _ _ _ h

/-- A tilde-marked string filter value performs a regular-expression match of
the rest of the string against a string document value. -/
theorem matchValue_tilde (ci : Bool) (pat : List Char) (t : String) :
    matchValue ci (Doc.str (String.mk ('~' :: pat))) (Doc.str t) = regexMatch ci pat t.data := rfl

/-- A string filter value not starting with the tilde sentinel is an equality
match. -/
theorem matchValue_plain (ci : Bool) (s : String) (dv : Doc)
    (h : s.data.head? ≠ some '~') :
    matchValue ci (Doc.str s) dv = (dv == Doc.str s) := by
  show strFilterMatch ci s.data (Doc.str s) dv = (dv == Doc.str s)
  cases hs : s.data with
  | nil => rfl
  | cons c rest =>
    have hc : c ≠ '~' := by
      intro hEq
      exact h (by rw [hs, hEq]; rfl)
    unfold strFilterMatch
    split
    · rename_i heq
      rw [List.cons.injEq] at heq
      exact absurd heq.1 hc
    · rfl

/-- When `dropAfter` succeeds, the subject decomposes around an occurrence of
the pattern, with the result as the tail. -/
theorem dropAfter_some (p : List Char) :
    ∀ l r, dropAfter p l = some r → ∃ a, l = a ++ p ++ r := by
  intro l
  induction l with
  | nil =>
    intro r h
    unfold dropAfter at h
    split at h
    · rename_i hp
      rw [List.isEmpty_iff] at hp
      rw [Option.some.injEq] at h
      exact ⟨[], by simp [hp, ← h]⟩
    · cases h
  | cons c rest ih =>
    intro r h
    unfold dropAfter at h
    split at h
    · rename_i hp
      rcases List.isPrefixOf_iff_prefix.mp hp with ⟨t, ht⟩
      rw [Option.some.injEq] at h
      refine ⟨[], ?_⟩
      rw [← h, List.nil_append, ← ht, List.drop_left]
    · rcases ih r h with ⟨a, ha⟩
      exact ⟨c :: a, by simp [ha]⟩

/-- When the subject decomposes around an occurrence of the pattern,
`dropAfter` succeeds. -/
theorem dropAfter_isSome (p : List Char) :
    ∀ a r, (dropAfter p (a ++ p ++ r)).isSome = true := by
  intro a
  induction a with
  | nil =>
    intro r
    rw [List.nil_append]
    cases hpr : p ++ r with
    | nil =>
      rcases List.append_eq_nil.mp hpr with ⟨hp, _⟩
      simp [dropAfter, hp]
    | cons c rest =>
      have hpre : p.isPrefixOf (c :: rest) = true := by
        rw [← hpr]
        exact List.isPrefixOf_iff_prefix.mpr ⟨r, rfl⟩
      simp [dropAfter, hpre]
  | cons c a' ih =>
    intro r
    rw [List.cons_append, List.cons_append]
    unfold dropAfter
    split
    · rfl
    · exact ih r

/-- `dropAfter` keeps the tail of the first occurrence: the tail of any
occurrence is no longer than the returned tail. -/
theorem dropAfter_longest (p : List Char) :
    ∀ l r, dropAfter p l = some r → ∀ a b, l = a ++ p ++ b → b.length ≤ r.length := by
  intro l
  induction l with
  | nil =>
    intro r h a b hab
    have hb : b = [] := by
      rcases List.append_eq_nil.mp hab.symm with ⟨_, hb⟩
      exact hb
    simp [hb]
  | cons c rest ih =>
    intro r h a b hab
    unfold dropAfter at h
    split at h
    · rename_i hp
      rw [Option.some.injEq] at h
      have hlen : rest.length + 1 = a.length + (p.length + b.length) := by
        have := congrArg List.length hab
        simpa using this
      have hr : r.length = rest.length + 1 - p.length := by
        rw [← h]
        simp
      omega
    · rename_i hp
      cases a with
      | nil =>
        exfalso
        apply hp
        rw [List.nil_append] at hab
        exact List.isPrefixOf_iff_prefix.mpr ⟨b, by rw [hab]⟩
      | cons a0 a' =>
        rw [List.cons_append, List.cons_append, List.cons.injEq] at hab
        exact ih r h a' b (by rw [hab.2, List.append_assoc])

/-- Occurrence test: `containsSub` holds exactly when the pattern occurs
contiguously in the subject. -/
theorem containsSub_iff (p l : List Char) :
    containsSub p l = true ↔ ∃ a b, l = a ++ p ++ b := by
  unfold containsSub
  constructor
  · intro h
    rcases Option.isSome_iff_exists.mp h with ⟨r, hr⟩
    rcases dropAfter_some p l r hr with ⟨a, ha⟩
    exact ⟨a, r, ha⟩
  · rintro ⟨a, b, rfl⟩
    exact dropAfter_isSome p a b

/-- The executable key test of `get_tau` agrees with the declarative reading
of its regular expression. -/
theorem tauKeyMatches_iff (c1 c2 key : String) :
    tauKeyMatches c1 c2 key = true ↔ tauPatternSemantics c1 c2 key := by
  unfold tauKeyMatches tauPatternSemantics
  constructor
  · intro h
    rw [Bool.and_eq_true] at h
    obtain ⟨h1, h2⟩ := h
    rcases List.isPrefixOf_iff_prefix.mp h1 with ⟨rest0, hrest0⟩
    have hdrop : key.data.drop tauKeyPre.length = rest0 := by
      rw [← hrest0, List.drop_left]
    rw [hdrop] at h2
    cases hda : dropAfter c1.data rest0 with
    | none => rw [hda] at h2; cases h2
    | some r1 =>
      rw [hda] at h2
      rcases (containsSub_iff _ _).mp h2 with ⟨g2, g3, hr1⟩
      rcases dropAfter_some _ _ _ hda with ⟨g1, hrest⟩
      refine ⟨g1, g2, g3, ?_⟩
      rw [← hrest0, hrest, hr1]
      simp [List.append_assoc]
  · rintro ⟨g1, g2, g3, hk⟩
    rw [Bool.and_eq_true]
    have hassoc : key.data = tauKeyPre ++ (g1 ++ c1.data ++ (g2 ++ c2.data ++ g3)) := by
      rw [hk]; simp [List.append_assoc]
    have hpre : tauKeyPre.isPrefixOf key.data = true := by
      apply List.isPrefixOf_iff_prefix.mpr
      exact ⟨g1 ++ c1.data ++ (g2 ++ c2.data ++ g3), hassoc.symm⟩
    refine ⟨hpre, ?_⟩
    have hdrop : key.data.drop tauKeyPre.length = g1 ++ c1.data ++ (g2 ++ c2.data ++ g3) := by
      rw [hassoc, List.drop_left]
    rw [hdrop]
    have hsome := dropAfter_isSome c1.data g1 (g2 ++ c2.data ++ g3)
    cases hda : dropAfter c1.data (g1 ++ c1.data ++ (g2 ++ c2.data ++ g3)) with
    | none => rw [hda] at hsome; cases hsome
    | some r =>
      have hble := dropAfter_longest c1.data _ r hda g1 (g2 ++ c2.data ++ g3) rfl
      rcases dropAfter_some _ _ _ hda with ⟨a', ha'⟩
      have hrsuff : r <:+ g1 ++ c1.data ++ (g2 ++ c2.data ++ g3) := ⟨a' ++ c1.data, ha'.symm⟩
      have hbsuff : g2 ++ c2.data ++ g3 <:+ g1 ++ c1.data ++ (g2 ++ c2.data ++ g3) :=
        ⟨g1 ++ c1.data, by simp [List.append_assoc]⟩
      have hbr := List.suffix_of_suffix_length_le hbsuff hrsuff hble
      rcases hbr with ⟨pfx, hpfx⟩
      apply (containsSub_iff _ _).mpr
      exact ⟨pfx ++ g2, g3, by rw [← hpfx]; simp [List.append_assoc]⟩

/-! ## Claim theorems -/

/-- C10: `make_control_volume(unit, name, config)` raises `ValueError` if and
only if `config.dynamic` is not `False` or `config.has_holdup` is not `False`;
when both are `False` it attaches a 0D control volume to the unit under the
given name and adds the state blocks, the material balances, and the total
enthalpy balances, in that order, without error. -/
theorem C10_make_control_volume (name : String) (cfg : CompressorConfig) :
    ((∃ msg, make_control_volume name cfg = Except.error msg) ↔
      (cfg.dynamic ≠ PyTri.pyFalse ∨ cfg.has_holdup ≠ PyTri.pyFalse)) ∧
    (cfg.dynamic = PyTri.pyFalse → cfg.has_holdup = PyTri.pyFalse →
      make_control_volume name cfg =
        Except.ok [CVStep.attachControlVolume name,
          CVStep.addStateBlocks cfg.has_phase_equilibrium,
          CVStep.addMaterialBalances cfg.material_balance_type cfg.has_phase_equilibrium,
          CVStep.addTotalEnthalpyBalances false false true]) := by
  constructor
  · constructor
    · rintro ⟨msg, hm⟩
      by_contra hcon
      push_neg at hcon
      rw [make_control_volume, if_neg (by simp [hcon.1]), if_neg (by simp [hcon.2])] at hm
      cases hm
    · intro hor
      unfold make_control_volume
      by_cases hd : cfg.dynamic = PyTri.pyFalse
      · rcases hor with h | h
        · exact absurd hd h
        · rw [if_neg (by simp [hd]), if_pos h]
          exact ⟨_, rfl⟩
      · rw [if_pos hd]
        exact ⟨_, rfl⟩
  · intro h1 h2
    simp [make_control_volume, h1, h2]

/-- C10 witness: the success branch evaluated at a steady-state no-holdup
configuration, and the error branch at a dynamic one. -/
theorem C10_make_control_volume_witness :
    make_control_volume "control_volume" ⟨PyTri.pyFalse, PyTri.pyFalse, "componentPhase", false⟩ =
      Except.ok [CVStep.attachControlVolume "control_volume",
        CVStep.addStateBlocks false,
        CVStep.addMaterialBalances "componentPhase" false,
        CVStep.addTotalEnthalpyBalances false false true] ∧
    (∃ msg, make_control_volume "control_volume"
        ⟨PyTri.pyTrue, PyTri.pyFalse, "componentPhase", false⟩ = Except.error msg) :=
  ⟨(C10_make_control_volume "control_volume"
      ⟨PyTri.pyFalse, PyTri.pyFalse, "componentPhase", false⟩).2 rfl rfl,
   (C10_make_control_volume "control_volume"
      ⟨PyTri.pyTrue, PyTri.pyFalse, "componentPhase", false⟩).1.mpr (Or.inl (by decide))⟩

/-- C9: `get_tau(d, chem1, chem2)` returns the value at the first key of
`d.index` (in iteration order) matching the regular expression
`fs\.properties\.tau.*CHEM1.*CHEM2.*`, and raises `KeyError` if and only if no
key of `d.index` matches that pattern.  The hypotheses restrict the statement
to the domain where the embedded matcher coincides with Python's `re.match`:
keys without newlines (`.*` does not cross a newline), and chemical names free
of every regex metacharacter (`regexMeta`), so that the names interpolated
into the regex stand for their literal text.  These hypotheses only delimit
the domain; the model behaves uniformly, so they are not used by the proof. -/
theorem C9_get_tau {α : Type} (d : List (String × α)) (c1 c2 : String)
    (hkeys : ∀ k ∈ d.map Prod.fst, '\n' ∉ k.data)
    (hc1 : ∀ c ∈ c1.data, c ∉ regexMeta)
    (hc2 : ∀ c ∈ c2.data, c ∉ regexMeta) :
    ((∃ msg, get_tau d c1 c2 = Except.error msg) ↔
      ∀ k ∈ d.map Prod.fst, ¬ tauPatternSemantics c1 c2 k) ∧
    (∀ k v, (d.map Prod.fst).find? (tauKeyMatches c1 c2) = some k →
      d.lookup k = some v → get_tau d c1 c2 = Except.ok v) := by
  constructor
  · constructor
    · rintro ⟨msg, hm⟩ k hk hsem
      unfold get_tau at hm
      cases hfind : (d.map Prod.fst).find? (tauKeyMatches c1 c2) with
      | some k2 =>
        rw [hfind] at hm
        rcases lookup_of_mem_keys d k2 (List.mem_of_find?_eq_some hfind) with ⟨v, hv⟩
        simp [hv] at hm
      | none =>
        have hfalse : ¬ tauKeyMatches c1 c2 k = true := by
          simpa using List.find?_eq_none.mp hfind k hk
        exact hfalse ((tauKeyMatches_iff c1 c2 k).mpr hsem)
    · intro hall
      unfold get_tau
      cases hfind : (d.map Prod.fst).find? (tauKeyMatches c1 c2) with
      | some k2 =>
        exfalso
        exact hall k2 (List.mem_of_find?_eq_some hfind)
          ((tauKeyMatches_iff _ _ _).mp (List.find?_some hfind))
      | none => exact ⟨_, rfl⟩
  · intro k v hfind hv
    unfold get_tau
    rw [hfind]
    simp [hv]

/-- C9 witness: on the concrete parameter series with the key shape produced
by `parmest`, `get_tau` returns the value at the benzene-toluene key. -/
theorem C9_get_tau_witness :
    ('\n' ∉ "fs.properties.tau[('benzene', 'toluene')]".data) ∧
    get_tau exParams "benzene" "toluene" = Except.ok (-9) :=
  ⟨by decide,
   (C9_get_tau exParams "benzene" "toluene" (by decide) (by decide) (by decide)).2
     "fs.properties.tau[('benzene', 'toluene')]" (-9) (by decide) (by decide)⟩

/-- C5: when no resource matches a lookup, the query operations return empty
rather than raising: `find` yields the empty sequence, and `find_one` returns
the none sentinel exactly when `find` is empty, so callers can branch on the
result; both operations are total, so no exception is possible. -/
theorem C5_no_match_returns_empty (s : DMFState) (flt : List (String × Doc))
    (name : Option String) (ci : Bool) :
    (find s flt name ci = [] ↔
      ∀ r ∈ s.store, (nameMatches name r && matchesFilter ci flt r) = false) ∧
    (find_one s flt name ci = none ↔ find s flt name ci = []) ∧
    ((∀ r ∈ s.store, matchesFilter ci flt r = false) → find_one s flt name ci = none) := by
  refine ⟨?_, ?_, ?_⟩
  · rw [find, List.filter_eq_nil_iff]
    constructor
    · intro h r hr
      simpa using h r hr
    · intro h r hr
      simp [h r hr]
  · rw [find_one, List.head?_eq_none_iff]
  · intro h
    rw [find_one, List.head?_eq_none_iff, find, List.filter_eq_nil_iff]
    intro r hr
    simp [h r hr]

/-- C5 witness: looking up a name absent from the store returns the none
sentinel. -/
theorem C5_no_match_returns_empty_witness :
    (∀ r ∈ exState.store, matchesFilter false [("type", Doc.str "nope")] r = false) ∧
    find_one exState [("type", Doc.str "nope")] none false = none :=
  ⟨by decide,
   (C5_no_match_returns_empty exState [("type", Doc.str "nope")] none false).2.2 (by decide)⟩

/-- C6: `find_by_id(p)` yields exactly the stored resources whose identifier
starts with `p`; and when identifiers are distinct and of one common length
(as generated uuid identifiers are), the exact full identifier of a stored
resource yields that single resource. -/
theorem C6_find_by_id_matching (s : DMFState) (pre : String) :
    (∀ r, r ∈ find_by_id s pre ↔ r ∈ s.store ∧ pre.data.isPrefixOf r.id.data = true) ∧
    (∀ r ∈ s.store, (ids s.store).Nodup →
      (∀ q ∈ s.store, q.id.data.length = r.id.data.length) →
      find_by_id s r.id = [r]) := by
  constructor
  · intro r
    rw [find_by_id, List.mem_filter]
  · intro r hr hnd hlen
    rw [find_by_id]
    apply filter_eq_singleton_of_unique s.store r _ hr
    · exact List.isPrefixOf_iff_prefix.mpr (List.prefix_refl _)
    · intro q hq hpq
      have hpfx := List.isPrefixOf_iff_prefix.mp hpq
      have := hpfx.eq_of_length (by rw [hlen q hq])
      exact String.ext this.symm
    · exact hnd

/-- C6 witness: the exact-id lookup on the concrete two-resource store. -/
theorem C6_find_by_id_matching_witness :
    resA ∈ exState.store ∧ find_by_id exState "a1" = [resA] :=
  ⟨by decide,
   (C6_find_by_id_matching exState "a1").2 resA (by decide) (by decide) (by decide)⟩

/-- C8: after `remove(id)` the lookups of that identifier return empty — with
identifiers of one common length (as generated ones are), `find_by_id` with the
removed id yields nothing, and `find_one` on the id field returns the none
sentinel; `remove` by filter deletes exactly the resources matching the filter,
with the same matching semantics as `find`. -/
theorem C8_remove_then_lookup_empty (s : DMFState) (rid : String) (ci : Bool)
    (flt : List (String × Doc)) :
    ((∀ q ∈ s.store, q.id.data.length = rid.data.length) →
      find_by_id (remove s rid) rid = []) ∧
    (rid.data.head? ≠ some '~' →
      find_one (remove s rid) [("id", Doc.str rid)] none ci = none) ∧
    (∀ q, q ∈ (remove_filter s ci flt).store ↔
      q ∈ s.store ∧ matchesFilter ci flt q = false) ∧
    (find (remove_filter s ci flt) flt none ci = []) := by
  refine ⟨?_, ?_, ?_, ?_⟩
  · intro hlen
    rw [find_by_id, List.filter_eq_nil_iff]
    intro q hq
    rw [remove] at hq
    simp only [List.mem_filter, Bool.not_eq_eq_eq_not, Bool.not_true] at hq
    intro hpfx
    have hpfx2 := List.isPrefixOf_iff_prefix.mp hpfx
    have : rid = q.id := String.ext (hpfx2.eq_of_length (by rw [hlen q hq.1]))
    rw [← this] at hq
    simp at hq
  · intro htilde
    rw [find_one, List.head?_eq_none_iff, find, List.filter_eq_nil_iff]
    intro q hq
    rw [remove] at hq
    simp only [List.mem_filter, Bool.not_eq_eq_eq_not, Bool.not_true,
      beq_eq_false_iff_ne] at hq
    have hkp : keyPath "id" = ["id"] := by decide
    have hgp : getPath (resourceDoc q) ["id"] = some (Doc.str q.id) := by
      simp [resourceDoc, getPath, DocFields.get?]
    have hmi : matchItem ci q "id" (Doc.str rid) = false := by
      rw [matchItem, hkp, hgp]
      simp only []
      rw [matchValue_plain ci rid (Doc.str q.id) htilde]
      simp [hq.2]
    simp [matchesFilter, hmi]
  · intro q
    rw [remove_filter]
    simp [List.mem_filter]
  · rw [find, List.filter_eq_nil_iff]
    intro q hq
    rw [remove_filter] at hq
    simp only [List.mem_filter, Bool.not_eq_eq_eq_not, Bool.not_true] at hq
    simp [hq.2]

/-- C8 witness: removing a resource from the concrete store by id and by
filter. -/
theorem C8_remove_then_lookup_empty_witness :
    find_by_id (remove exState "a1") "a1" = [] ∧
    find_one (remove exState "a1") [("id", Doc.str "a1")] none false = none ∧
    find (remove_filter exState false [("type", Doc.str "code")])
      [("type", Doc.str "code")] none false = [] := by
  have h := C8_remove_then_lookup_empty exState "a1" false [("type", Doc.str "code")]
  exact ⟨h.1 (by decide), h.2.1 (by decide), h.2.2.2⟩

/-- C3: `add(r)` fails exactly when a resource with the same identifier is
already stored; after a successful `add`, looking the resource up by its exact
identifier returns a document whose fields (id, type, aliases, tags, value)
equal what was stored; and the flush write-back never changes a stored
identifier (the identifier is immutable). -/
theorem C3_add_then_exact_lookup (s : DMFState) (r : Resource) :
    ((ids s.store).contains r.id = true →
      add s r = Except.error "identifier already exists") ∧
    ((ids s.store).contains r.id = false →
      ∃ s₂, add s r = Except.ok s₂ ∧
        ∃ doc ∈ find_by_id s₂ r.id,
          doc.id = r.id ∧ doc.rtype = r.rtype ∧ doc.aliases = r.aliases ∧
          doc.tags = r.tags ∧ doc.value = r.value) ∧
    (∀ t : DMFState, ids (update t).store = ids t.store) := by
  refine ⟨?_, ?_, ids_update⟩
  · intro h
    rw [add, if_pos h]
  · intro h
    refine ⟨⟨s.store ++ [r], s.pending⟩, ?_, r, ?_, rfl, rfl, rfl, rfl, rfl⟩
    · rw [add, if_neg (by simpa using h)]
    · rw [find_by_id]
      exact List.mem_filter.mpr
        ⟨by simp, List.isPrefixOf_iff_prefix.mpr (List.prefix_refl _)⟩

/-- C3 witness: adding a fresh resource to the concrete store and looking it
up by its exact identifier. -/
theorem C3_add_then_exact_lookup_witness :
    ∃ s₂, add exState resFlash = Except.ok s₂ ∧
      ∃ doc ∈ find_by_id s₂ resFlash.id,
        doc.id = resFlash.id ∧ doc.rtype = resFlash.rtype ∧
        doc.aliases = resFlash.aliases ∧ doc.tags = resFlash.tags ∧
        doc.value = resFlash.value :=
  (C3_add_then_exact_lookup exState resFlash).2.1 (by decide)

/-- C2: `create_relation(subject, predicate, object)` validates the predicate
against the enumerated set {derived, contains, uses, version}; on success it
leaves the persisted store unchanged and only adds the two updated resources
(subject with an appended outgoing record, object with an appended incoming
record) to the pending buffer; and a subsequent `update()` batch-writes every
resource with pending changes back into the store. -/
theorem C2_create_relation_defers_persistence (s : DMFState) (a b : Resource) (p : String) :
    (validPredicates.contains p = false →
      create_relation s a p b = Except.error "invalid predicate") ∧
    (validPredicates.contains p = true →
      create_relation s a p b =
        Except.ok ⟨s.store, upsert (withOut a p b.id) (upsert (withIn b p a.id) s.pending)⟩) ∧
    (∀ t : DMFState, (ids t.pending).Nodup →
      ∀ q ∈ t.pending, q.id ∈ ids t.store → q ∈ (update t).store) := by
  refine ⟨?_, ?_, ?_⟩
  · intro h
    rw [create_relation, if_neg (by simpa using h)]
  · intro h
    rw [create_relation, if_pos h]
  · intro t hnd q hq hid
    rcases List.mem_map.mp hid with ⟨r, hr, hrid⟩
    rw [update]
    apply List.mem_map.mpr
    refine ⟨r, hr, ?_⟩
    have hfind : t.pending.find? (fun x => x.id == r.id) = some q := by
      rw [hrid]
      exact find?_id_of_nodup t.pending q hnd hq
    simp [hfind]

/-- C2 witness: a valid predicate defers persistence on the concrete store; an
invalid one is rejected. -/
theorem C2_create_relation_defers_persistence_witness :
    create_relation exState resA "uses" resB =
      Except.ok ⟨exState.store,
        upsert (withOut resA "uses" resB.id) (upsert (withIn resB "uses" resA.id) exState.pending)⟩ ∧
    validPredicates.contains "shreds" = false ∧
    create_relation exState resA "shreds" resB = Except.error "invalid predicate" :=
  ⟨(C2_create_relation_defers_persistence exState resA resB "uses").2.1 (by decide),
   by decide,
   (C2_create_relation_defers_persistence exState resA resB "shreds").1 (by decide)⟩

/-- C4: in filter queries, a string value whose first character is the tilde
sentinel is interpreted as a regular expression rather than an equality match;
a regex-valued filter with `re.IGNORECASE` matches independently of the
subject's case, and without the flag it is case-sensitive — on the tutorial's
`data.unit` example the case-blind query finds the resource only when the flag
is set. -/
theorem C4_regex_marker_and_case_flag :
    (∀ (ci : Bool) (pat : List Char) (t : String),
      matchValue ci (Doc.str (String.mk ('~' :: pat))) (Doc.str t) = regexMatch ci pat t.data) ∧
    (∀ (ci : Bool) (sv : String) (dv : Doc), sv.data.head? ≠ some '~' →
      matchValue ci (Doc.str sv) dv = (dv == Doc.str sv)) ∧
    (∀ (pat s₁ s₂ : List Char), s₁.map Char.toLower = s₂.map Char.toLower →
      regexMatch true pat s₁ = regexMatch true pat s₂) ∧
    find_one exFlashState [("data.unit", Doc.str "~.*flash.*")] none true = some resFlash ∧
    find_one exFlashState [("data.unit", Doc.str "~.*flash.*")] none false = none :=
  ⟨matchValue_tilde, matchValue_plain, regexMatch_ci, by decide, by decide⟩

/-- C4 witness: the case-insensitive invariance applied to `Flash` versus
`flash`, and the plain-equality reading of an unmarked filter value. -/
theorem C4_regex_marker_and_case_flag_witness :
    ("Flash".data.map Char.toLower = "flash".data.map Char.toLower) ∧
    regexMatch true ".*flash.*".data "Flash".data = regexMatch true ".*flash.*".data "flash".data ∧
    matchValue false (Doc.str "data") (Doc.str "data") = (Doc.str "data" == Doc.str "data") :=
  ⟨by decide,
   C4_regex_marker_and_case_flag.2.2.1 ".*flash.*".data "Flash".data "flash".data (by decide),
   C4_regex_marker_and_case_flag.2.1 false "data" (Doc.str "data") (by decide)⟩

/-- C7: a resource created from a file in copy mode: `get_datafiles` with no
mode returns the path object, and with a mode string returns an open handle
whose readable content equals the source file's content at copy time — for
every later state of the external filesystem, so changing or deleting the
original file does not affect the stored content. -/
theorem C7_copied_file_content (s : DMFState) (fs : List (String × String))
    (rid file name content : String)
    (hfile : readFile fs file = some content)
    (hfresh : (ids s.store).contains rid = false) :
    ∃ s₂, new s fs true rid file name =
        Except.ok (s₂, newResourceRecord true rid file name content) ∧
      get_datafiles (newResourceRecord true rid file name content) fs none =
        [FileHandle.path file] ∧
      (∀ (fs₂ : List (String × String)) (m : String),
        get_datafiles (newResourceRecord true rid file name content) fs₂ (some m) =
          [FileHandle.file m (some content)]) := by
  refine ⟨⟨s.store ++ [newResourceRecord true rid file name content], s.pending⟩, ?_, rfl, ?_⟩
  · rw [new, hfile]
    have hok : add s (newResourceRecord true rid file name content) =
        Except.ok ⟨s.store ++ [newResourceRecord true rid file name content], s.pending⟩ := by
      rw [add, if_neg (by simpa using hfresh)]
    simp only [hok]
  · intro fs₂ m
    rfl

/-- C7 witness: a dataset file copied into the concrete store keeps its
content when the external file disappears. -/
theorem C7_copied_file_content_witness :
    readFile exFs "BT_NRTL_dataset.csv" = some "T,x,y" ∧
    ∃ s₂, new exState exFs true "d4" "BT_NRTL_dataset.csv" "BT NRTL dataset" =
        Except.ok (s₂, newResourceRecord true "d4" "BT_NRTL_dataset.csv" "BT NRTL dataset" "T,x,y") ∧
      get_datafiles (newResourceRecord true "d4" "BT_NRTL_dataset.csv" "BT NRTL dataset" "T,x,y")
        exFs none = [FileHandle.path "BT_NRTL_dataset.csv"] ∧
      (∀ (fs₂ : List (String × String)) (m : String),
        get_datafiles (newResourceRecord true "d4" "BT_NRTL_dataset.csv" "BT NRTL dataset" "T,x,y")
          fs₂ (some m) = [FileHandle.file m (some "T,x,y")]) :=
  ⟨by decide,
   C7_copied_file_content exState exFs "d4" "BT_NRTL_dataset.csv" "BT NRTL dataset" "T,x,y"
     (by decide) (by decide)⟩

/-- Looking up a stored resource's id after a flush returns its pending
version when one exists, and the resource itself otherwise. -/
theorem lookupRes_update (s : DMFState) (r : Resource) (hr : r ∈ s.store)
    (hnd : (ids s.store).Nodup) :
    lookupRes (update s).store r.id =
      some ((s.pending.find? (fun q => q.id == r.id)).getD r) := by
  rw [update, lookupRes]
  have hcomp : ((fun x : Resource => x.id == r.id) ∘
      (fun x => (s.pending.find? (fun q => q.id == x.id)).getD x)) =
      (fun x : Resource => x.id == r.id) := by
    funext x
    simp only [Function.comp]
    rw [updatedId s.pending x]
  rw [List.find?_map, hcomp, find?_id_of_nodup s.store r hnd hr]
  rfl

/-- A traversal from a resource reports each of its edges at depth one. -/
theorem mem_find_related_depth1 (t : DMFState) (r r2 : Resource) (outgoing : Bool)
    (meta : List String) (hlook : lookupRes t.store r.id = some r2)
    (e : Triple × String) (he : e ∈ relEdges outgoing r2) :
    ∃ md, (1, e.1, md) ∈ find_related t r outgoing meta := by
  rw [find_related, find_related_aux, hlook]
  refine ⟨(match lookupRes t.store e.2 with
    | some q => materialize meta q
    | none => []), ?_⟩
  apply List.mem_flatMap.mpr
  exact ⟨e, he, by simp⟩

/-- C1: after `create_relation(A, p, B)` and the explicit `update()` flush,
the relation is mirrored — the store holds A's document with the outgoing
record and B's document with the incoming record — and a `find_related`
traversal from A with `outgoing=true` discovers the triple (A, p, B), while a
traversal from B with `outgoing=false` discovers the same triple as
incoming. -/
theorem C1_relation_mirrored_after_flush (s : DMFState) (a b : Resource) (p : String)
    (hp : validPredicates.contains p = true)
    (ha : a ∈ s.store) (hb : b ∈ s.store) (hab : a.id ≠ b.id)
    (hnd : (ids s.store).Nodup) (hpend : s.pending = []) (meta : List String) :
    ∃ s₂, create_relation s a p b = Except.ok s₂ ∧
      (∃ ra ∈ (update s₂).store, ra.id = a.id ∧
        (⟨p, b.id, Direction.outgoing⟩ : Relation) ∈ ra.relations) ∧
      (∃ rb ∈ (update s₂).store, rb.id = b.id ∧
        (⟨p, a.id, Direction.incoming⟩ : Relation) ∈ rb.relations) ∧
      (∃ md, (1, ⟨a.id, p, b.id⟩, md) ∈ find_related (update s₂) a true meta) ∧
      (∃ md, (1, ⟨a.id, p, b.id⟩, md) ∈ find_related (update s₂) b false meta) := by
  refine ⟨⟨s.store, [withOut a p b.id, withIn b p a.id]⟩, ?_, ?_⟩
  · rw [create_relation, if_pos hp, hpend]
    have h1 : upsert (withIn b p a.id) [] = [withIn b p a.id] := by
      rw [upsert]
      simp
    have h2 : upsert (withOut a p b.id) [withIn b p a.id] =
        [withOut a p b.id, withIn b p a.id] := by
      rw [upsert]
      have hne : ((withIn b p a.id).id == (withOut a p b.id).id) = false := by
        simp only [withIn, withOut]
        exact beq_false_of_ne (fun h => hab h.symm)
      simp [hne]
    rw [h1, h2]
  · have hfa : ([withOut a p b.id, withIn b p a.id] : List Resource).find?
        (fun q => q.id == a.id) = some (withOut a p b.id) := by
      rw [List.find?_cons_of_pos _ (by simp [withOut])]
    have hfb : ([withOut a p b.id, withIn b p a.id] : List Resource).find?
        (fun q => q.id == b.id) = some (withIn b p a.id) := by
      rw [List.find?_cons_of_neg _ (by simp [withOut]; exact hab),
        List.find?_cons_of_pos _ (by simp [withIn])]
    have hlookA : lookupRes (update ⟨s.store, [withOut a p b.id, withIn b p a.id]⟩).store a.id =
        some (withOut a p b.id) := by
      have h := lookupRes_update ⟨s.store, [withOut a p b.id, withIn b p a.id]⟩ a ha hnd
      rw [hfa] at h
      exact h
    have hlookB : lookupRes (update ⟨s.store, [withOut a p b.id, withIn b p a.id]⟩).store b.id =
        some (withIn b p a.id) := by
      have h := lookupRes_update ⟨s.store, [withOut a p b.id, withIn b p a.id]⟩ b hb hnd
      rw [hfb] at h
      exact h
    refine ⟨⟨withOut a p b.id, ?_, rfl, by simp [withOut]⟩,
      ⟨withIn b p a.id, ?_, rfl, by simp [withIn]⟩, ?_, ?_⟩
    · exact List.mem_of_find?_eq_some hlookA
    · exact List.mem_of_find?_eq_some hlookB
    · apply mem_find_related_depth1 _ a (withOut a p b.id) true meta hlookA
        (⟨a.id, p, b.id⟩, b.id)
      apply List.mem_filterMap.mpr
      exact ⟨⟨p, b.id, Direction.outgoing⟩, by simp [withOut], rfl⟩
    · apply mem_find_related_depth1 _ b (withIn b p a.id) false meta hlookB
        (⟨a.id, p, b.id⟩, a.id)
      apply List.mem_filterMap.mpr
      exact ⟨⟨p, a.id, Direction.incoming⟩, by simp [withIn], rfl⟩

/-- C1 witness: the uses-relation between the two concrete resources is
mirrored and discoverable in both directions after the flush. -/
theorem C1_relation_mirrored_after_flush_witness :
    ∃ s₂, create_relation exState resA "uses" resB = Except.ok s₂ ∧
      (∃ ra ∈ (update s₂).store, ra.id = resA.id ∧
        (⟨"uses", resB.id, Direction.outgoing⟩ : Relation) ∈ ra.relations) ∧
      (∃ rb ∈ (update s₂).store, rb.id = resB.id ∧
        (⟨"uses", resA.id, Direction.incoming⟩ : Relation) ∈ rb.relations) ∧
      (∃ md, (1, ⟨resA.id, "uses", resB.id⟩, md) ∈ find_related (update s₂) resA true ["type"]) ∧
      (∃ md, (1, ⟨resA.id, "uses", resB.id⟩, md) ∈ find_related (update s₂) resB false ["type"]) :=
  C1_relation_mirrored_after_flush exState resA resB "uses" (by decide) (by decide) (by decide)
    (by decide) (by decide) (by decide) ["type"]

end DMFSpec
